/-
Verification of the BookStack page exporter (scripts/export_bookstack.py).

The script is embedded shallowly over `List Char` strings:
  * `safe_name`    models `_safe_name` (filesystem-safe names),
  * `pickContent`  models `_pick_content` (Markdown vs HTML selection),
  * `getKey`, `applyFallbacks`, `missingOf`, `connectCheck` model
    `_load_repo_env_fallbacks` and the configuration check in `_connect`,
  * `exportRow`, `exportAll`, `exportPages` model the `export_pages` loop,
    with the filesystem modelled as a map from component paths to contents.
Database rows are modelled as records with optional string fields (the SQL
fetch itself is an external system); file contents are modelled as strings,
so byte-for-byte equality under the fixed UTF-8 encoding is string equality.
-/
import Mathlib

namespace BookStackExport

/-- Strings are modelled as lists of characters (Python `str`). -/
abbrev Str := List Char

/-- Filesystem paths are modelled as lists of path components. -/
abbrev FilePath := List Str

/-- Whitespace, as matched by Python's `str.strip` / regex `\s` on ASCII. -/
def pyIsSpace (c : Char) : Bool :=
  c = ' ' || c = '\t' || c = '\n' || c = '\r' || c = '\x0b' || c = '\x0c'

/-- Python `str.strip()`: drop whitespace from both ends. -/
def pyStrip (s : Str) : Str :=
  ((s.dropWhile pyIsSpace).reverse.dropWhile pyIsSpace).reverse

/-- A word character in the sense of regex `\w` (ASCII): alphanumeric or `_`. -/
def isWordChar (c : Char) : Bool :=
  c.isAlphanum || c = '_'

/-- Characters kept by `_safe_name`'s removal step `re.sub(r"[^\w\-\s.]", "", _)`. -/
def isKeepChar (c : Char) : Bool :=
  isWordChar c || c = '-' || pyIsSpace c || c = '.'

/-- State machine for `re.sub(r"\s+", "_", _)`: the flag records whether we are
inside a whitespace run that has already emitted its underscore. -/
def collapseWsAux : Bool → Str → Str
  | _, [] => []
  | inWs, c :: cs =>
    if pyIsSpace c then
      if inWs then collapseWsAux true cs else '_' :: collapseWsAux true cs
    else
      c :: collapseWsAux false cs

/-- Model of the whitespace-collapsing substitution: each maximal whitespace
run becomes one underscore. -/
def collapseWs (s : Str) : Str := collapseWsAux false s

/-- Model of the script function for filesystem-safe names: strip, slash to
dash, remove disallowed characters, collapse whitespace runs to underscore,
truncate to 120, default placeholder when empty. -/
def safe_name (s : Str) : Str :=
  let t1 := pyStrip s
  let t2 := t1.map (fun c => if c = '/' then '-' else c)
  let t3 := t2.filter isKeepChar
  let t4 := collapseWs t3
  let t5 := t4.take 120
  if t5 = [] then ("untitled".toList) else t5

/-- Spec wording of the allowed-character set: "alphanumeric, underscore,
dash, whitespace, or dot". -/
def specAllowedChar (c : Char) : Bool :=
  c.isAlphanum || c = '_' || c = '-' || pyIsSpace c || c = '.'

/-- Spec wording of "collapse each run of whitespace into a single
underscore", written by recursion on the first run. -/
def specCollapse : Str → Str
  | [] => []
  | c :: cs =>
    if pyIsSpace c then '_' :: specCollapse (cs.dropWhile pyIsSpace)
    else c :: specCollapse cs
termination_by s => s.length
decreasing_by
  · simpa using Nat.lt_succ_of_le (List.dropWhile_sublist pyIsSpace).length_le
  · simp

/-- The sanitizer exactly as the spec states the algorithm: trim surrounding
whitespace; replace the path separator with a dash; remove every character
that is not alphanumeric, underscore, dash, whitespace, or dot; collapse
whitespace runs into single underscores; truncate to 120 characters;
placeholder "untitled" if empty. -/
def safeNameSpec (s : Str) : Str :=
  let trimmed := pyStrip s
  let noSep := trimmed.map (fun c => if c = '/' then '-' else c)
  let filtered := noSep.filter specAllowedChar
  let collapsed := specCollapse filtered
  let truncated := collapsed.take 120
  if truncated = [] then ("untitled".toList) else truncated

/-- Characters that can occur in a `safe_name` result (other than of the
placeholder): kept and not whitespace. -/
def isOutChar (c : Char) : Bool :=
  isKeepChar c && !pyIsSpace c

/-- ASCII punctuation (Python `string.punctuation`), for the all-punctuation
claim about the sanitizer. -/
def punctChars : List Char :=
  ['!', '"', '#', '$', '%', '&', '\'', '(', ')', '*', '+', ',', '-', '.',
   '/', ':', ';', '<', '=', '>', '?', '@', '[', '\\', ']', '^', '_',
   '\x60', '\x7b', '|', '\x7d', '~']

/-- A character is punctuation when it is ASCII punctuation. -/
def isPunct (c : Char) : Bool := punctChars.contains c

/-- One fetched page row (the SQL result joined to book/chapter); nullable
columns are `Option`. Draft pages are excluded by the query itself. -/
structure Row where
  id : Nat
  rname : Option Str
  slug : Option Str
  book_name : Option Str
  chapter_name : Option Str
  markdown : Option Str
  html : Option Str
  updated_at : Option Str
deriving DecidableEq, Repr

/-- Python truthiness of an optional string: `None` and `""` are falsy. -/
def truthy : Option Str → Bool
  | none => false
  | some s => !s.isEmpty

/-- Python `value or ""`: `None` becomes the empty string. -/
def optStr (o : Option Str) : Str := o.getD []

/-- Model of the content selector from the script: trimmed Markdown when
preferred and non-empty, else trimmed HTML; the second component is the file
extension. -/
def pickContent (r : Row) (preferMarkdown : Bool) : Str × Str :=
  let md := pyStrip (optStr r.markdown)
  if preferMarkdown && !md.isEmpty then (md, ("md".toList))
  else (pyStrip (optStr r.html), ("html".toList))

/-- Decimal digits of `n`, most significant first; empty for `0`. -/
def natDigits : Nat → Str
  | 0 => []
  | n + 1 => natDigits ((n + 1) / 10) ++ [Char.ofNat (48 + (n + 1) % 10)]
decreasing_by
  exact Nat.div_lt_self (Nat.succ_pos n) (by omega)

/-- Python `repr` of a natural number (`0` prints as `"0"`). -/
def pyNatRepr (n : Nat) : Str :=
  if n = 0 then ['0'] else natDigits n

/-- Python `f"{n:06d}"` for a natural number: the decimal representation
left-padded with `'0'` to at least six characters. -/
def pad6 (n : Nat) : Str :=
  List.replicate (6 - (pyNatRepr n).length) '0' ++ pyNatRepr n

/-- Value of a digit string (inverse of `pad6`, used for injectivity). -/
def digitsVal (s : Str) : Nat :=
  s.foldl (fun a c => 10 * a + (c.toNat - 48)) 0

/-- The book directory component: `_safe_name(row.get("book_name") or "No_Book")`. -/
def bookDir (r : Row) : Str :=
  safe_name (if truthy r.book_name then optStr r.book_name else ("No_Book".toList))

/-- The directory a page is written into: under the book, and additionally
under the chapter when the row has a truthy chapter name. -/
def pageDir (outDir : FilePath) (r : Row) : FilePath :=
  if truthy r.chapter_name then
    outDir ++ [bookDir r, safe_name (optStr r.chapter_name)]
  else
    outDir ++ [bookDir r]

/-- The exported file name: zero-padded 6-digit id, underscore, sanitized
page name (null treated as empty), dot, extension. -/
def fileName (r : Row) (ext : Str) : Str :=
  pad6 r.id ++ '_' :: (safe_name (optStr r.rname) ++ '.' :: ext)

/-- Full path of the file written for a row. -/
def exportPath (outDir : FilePath) (r : Row) (preferMarkdown : Bool) : FilePath :=
  pageDir outDir r ++ [fileName r (pickContent r preferMarkdown).2]

/-- The spec's description of the same path: placeholder book component,
`<book>/<chapter>/` when a chapter exists else `<book>/`, and the file name
`<6-digit zero-padded id>_<sanitized page name>.<extension>`. -/
def pathSpec (outDir : FilePath) (r : Row) (preferMarkdown : Bool) : FilePath :=
  let book := match r.book_name with
    | some b => if b = [] then safe_name ("No_Book".toList) else safe_name b
    | none => safe_name ("No_Book".toList)
  let ext := (pickContent r preferMarkdown).2
  let fname := pad6 r.id ++ '_' :: (safe_name (optStr r.rname) ++ '.' :: ext)
  match r.chapter_name with
  | some c => outDir ++ [book, safe_name c, fname]
  | none => outDir ++ [book, fname]

/-- The filesystem: a set of created directories and a map from paths to
file contents. -/
structure FS where
  dirs : List FilePath
  files : FilePath → Option Str

/-- All prefixes of a path: the directory and its parents. -/
def prefixesOf (p : FilePath) : List FilePath :=
  (List.range (p.length + 1)).map (fun k => p.take k)

/-- Model of recursive directory creation: record the directory and its
parents as created (creating an existing directory is allowed). -/
def mkdirP (fs : FS) (p : FilePath) : FS :=
  { fs with dirs := prefixesOf p ++ fs.dirs }

/-- Model of the text write: overwrite the file at `p` with content `c`. -/
def writeText (fs : FS) (p : FilePath) (c : Str) : FS :=
  { fs with files := fun q => if q = p then some c else fs.files q }

/-- One manifest (`_index.csv`) record, as accumulated by `export_pages`. -/
structure ManifestRow where
  page_id : Nat
  book : Option Str
  chapter : Option Str
  mname : Option Str
  slug : Option Str
  path : FilePath
  ext : Str
  updated_at : Option Str
deriving DecidableEq, Repr

/-- The manifest record built for one row (independent of the filesystem). -/
def mrow (preferMarkdown : Bool) (outDir : FilePath) (r : Row) : ManifestRow :=
  { page_id := r.id
    book := r.book_name
    chapter := r.chapter_name
    mname := r.rname
    slug := r.slug
    path := exportPath outDir r preferMarkdown
    ext := (pickContent r preferMarkdown).2
    updated_at := r.updated_at }

/-- One iteration of the `export_pages` loop: make the page's directory,
write the selected content, and produce the manifest record. -/
def exportRow (preferMarkdown : Bool) (outDir : FilePath) (fs : FS) (r : Row) :
    FS × ManifestRow :=
  let fs1 := mkdirP fs (pageDir outDir r)
  (writeText fs1 (exportPath outDir r preferMarkdown) (pickContent r preferMarkdown).1,
   mrow preferMarkdown outDir r)

/-- The whole `export_pages` loop over the fetched rows, in order. -/
def exportAll (preferMarkdown : Bool) (outDir : FilePath) (fs : FS) :
    List Row → FS × List ManifestRow
  | [] => (fs, [])
  | r :: rs =>
    let step := exportRow preferMarkdown outDir fs r
    let rest := exportAll preferMarkdown outDir step.1 rs
    (rest.1, step.2 :: rest.2)

/-- Environment variables relevant to the exporter (`None` means unset). -/
structure Env where
  host : Option Str
  port : Option Str
  dbname : Option Str
  user : Option Str
  pw : Option Str
deriving DecidableEq, Repr

/-- The value part of a line `KEY=VALUE`, when the line starts with `KEY=`
(the regex `^KEY=(.*)$` with `re.M`). -/
def lineValue (key : Str) (line : Str) : Option Str :=
  if line.take key.length = key ∧ (line.drop key.length).head? = some '=' then
    some (line.drop (key.length + 1))
  else none

/-- Strip one pair of matching surrounding single or double quotes, as
`_load_repo_env_fallbacks.get_key` does after `strip()`. -/
def stripQuotes (v : Str) : Str :=
  if (v.head? = some '"' ∧ v.getLast? = some '"') ∨
     (v.head? = some '\'' ∧ v.getLast? = some '\'') then
    (v.drop 1).dropLast
  else v

/-- Model of the key lookup in the settings file: the first line matching
the anchored key-equals pattern, its value stripped of whitespace and then
of matching surrounding quotes. -/
def getKey (lines : List Str) (key : Str) : Option Str :=
  match lines with
  | [] => none
  | l :: ls =>
    match lineValue key l with
    | some v => some (stripQuotes (pyStrip v))
    | none => getKey ls key

/-- One fallback assignment: keep a truthy current value, else use the file's
value when that value is truthy. -/
def applyFallback1 (cur : Option Str) (lines : List Str) (key : Str) : Option Str :=
  if truthy cur then cur
  else
    match getKey lines key with
    | some v => if v.isEmpty then cur else some v
    | none => cur

/-- Model of the fallback loader: when the settings file exists, fill
database name, user and password (only) from it; host and port are
untouched. -/
def applyFallbacks (env : Env) (file : Option (List Str)) : Env :=
  match file with
  | none => env
  | some lines =>
    { env with
      dbname := applyFallback1 env.dbname lines ("DB_DATABASE".toList)
      user := applyFallback1 env.user lines ("DB_USERNAME".toList)
      pw := applyFallback1 env.pw lines ("DB_PASSWORD".toList) }

/-- The missing-variable list computed at the top of `_connect`, in the
loop's order HOST, NAME, USER, PASS. -/
def missingOf (e : Env) : List Str :=
  (if truthy e.host then [] else [("BS_DB_HOST".toList)]) ++
  (if truthy e.dbname then [] else [("BS_DB_NAME".toList)]) ++
  (if truthy e.user then [] else [("BS_DB_USER".toList)]) ++
  (if truthy e.pw then [] else [("BS_DB_PASS".toList)])

/-- The configuration check in `_connect`: raise `SystemExit` naming the
missing variables before any connection is attempted, else hand the
connection parameters on. -/
def connectCheck (e : Env) : Except (List Str) Env :=
  if missingOf e = [] then Except.ok e else Except.error (missingOf e)

/-- The manifest serialization (`_index.csv`) modelled as the list of rows
stored at the index path; the CSV byte layout is not itself modelled. -/
def renderIndex (man : List ManifestRow) : Str :=
  man.foldl (fun acc m => acc ++ pad6 m.page_id ++ m.ext) []

/-- The export entry point end to end: make the output root (before anything else),
run the `_connect` configuration check, then export every fetched row and
write the manifest. The fetched rows are a parameter: the database is an
external system. -/
def exportPages (env : Env) (preferMarkdown : Bool) (outDir : FilePath)
    (rows : List Row) (fs : FS) : FS × Except (List Str) (List ManifestRow) :=
  let fs1 := mkdirP fs outDir
  match connectCheck env with
  | Except.error m => (fs1, Except.error m)
  | Except.ok _ =>
    let res := exportAll preferMarkdown outDir fs1 rows
    (writeText res.1 (outDir ++ [("_index.csv".toList)]) (renderIndex res.2),
     Except.ok res.2)

/-- Path `p` lies strictly below directory `d`. -/
def underDir (d p : FilePath) : Prop :=
  ∃ rest, rest ≠ [] ∧ p = d ++ rest

/-! ### Lemmas about the name sanitizer -/

theorem dropWhile_eq_self_of_none (p : Char → Bool) (s : Str)
    (h : ∀ c ∈ s, p c = false) : s.dropWhile p = s := by
  cases s with
  | nil => rfl
  | cons a l => simp [List.dropWhile, h a (List.mem_cons_self a l)]

theorem pyStrip_eq_self (s : Str) (h : ∀ c ∈ s, pyIsSpace c = false) :
    pyStrip s = s := by
  unfold pyStrip
  rw [dropWhile_eq_self_of_none pyIsSpace s h,
      dropWhile_eq_self_of_none pyIsSpace s.reverse
        (fun c hc => h c (List.mem_reverse.mp hc)),
      List.reverse_reverse]

theorem map_slash_eq_self (s : Str) (h : ∀ c ∈ s, c ≠ '/') :
    s.map (fun c => if c = '/' then '-' else c) = s := by
  induction s with
  | nil => rfl
  | cons a l ih =>
    simp only [List.map_cons, if_neg (h a (List.mem_cons_self a l))]
    rw [ih (fun c hc => h c (List.mem_cons_of_mem a hc))]

theorem collapseWsAux_eq_self (b : Bool) (s : Str)
    (h : ∀ c ∈ s, pyIsSpace c = false) : collapseWsAux b s = s := by
  induction s generalizing b with
  | nil => rfl
  | cons a l ih =>
    simp only [collapseWsAux, h a (List.mem_cons_self a l), Bool.false_eq_true,
      if_false]
    rw [ih false (fun c hc => h c (List.mem_cons_of_mem a hc))]

theorem mem_collapseWsAux (b : Bool) (s : Str) (c : Char)
    (hc : c ∈ collapseWsAux b s) :
    c = '_' ∨ (c ∈ s ∧ pyIsSpace c = false) := by
  induction s generalizing b with
  | nil => simp [collapseWsAux] at hc
  | cons a l ih =>
    by_cases ha : pyIsSpace a
    · cases b with
      | true =>
        simp only [collapseWsAux, ha, if_true] at hc
        rcases ih true hc with h | ⟨h1, h2⟩
        · exact Or.inl h
        · exact Or.inr ⟨List.mem_cons_of_mem a h1, h2⟩
      | false =>
        simp only [collapseWsAux, ha, if_true] at hc
        rcases List.mem_cons.mp hc with h | h
        · exact Or.inl h
        · rcases ih true h with h' | ⟨h1, h2⟩
          · exact Or.inl h'
          · exact Or.inr ⟨List.mem_cons_of_mem a h1, h2⟩
    · simp only [collapseWsAux, ha, Bool.false_eq_true, if_false] at hc
      rcases List.mem_cons.mp hc with h | h
      · subst h
        exact Or.inr ⟨List.mem_cons_self c l, Bool.eq_false_iff.mpr ha⟩
      · rcases ih false h with h' | ⟨h1, h2⟩
        · exact Or.inl h'
        · exact Or.inr ⟨List.mem_cons_of_mem a h1, h2⟩

theorem mem_safe_name_outChar (s : Str) (c : Char) (hc : c ∈ safe_name s) :
    isOutChar c = true := by
  unfold safe_name at hc
  simp only at hc
  by_cases h5 : (collapseWs ((pyStrip s).map (fun c => if c = '/' then '-' else c)
      |>.filter isKeepChar)).take 120 = []
  · rw [if_pos h5] at hc
    have hall : ∀ x ∈ ("untitled".toList), isOutChar x = true := by decide
    exact hall c hc
  · rw [if_neg h5] at hc
    have h4 := List.take_subset 120 _ hc
    rcases mem_collapseWsAux false _ c h4 with h | ⟨h1, h2⟩
    · subst h; decide
    · have hk := List.of_mem_filter h1
      simp [isOutChar, hk, h2]

theorem safe_name_eq_self (s : Str) (hout : ∀ c ∈ s, isOutChar c = true)
    (hne : s ≠ []) (hlen : s.length ≤ 120) : safe_name s = s := by
  have hnosp : ∀ c ∈ s, pyIsSpace c = false := by
    intro c hc
    have := hout c hc
    simp [isOutChar, Bool.and_eq_true] at this
    exact Bool.eq_false_iff.mpr (by simpa using this.2)
  have hnoslash : ∀ c ∈ s, c ≠ '/' := by
    intro c hc heq
    subst heq
    have := hout '/' hc
    simp [isOutChar, isKeepChar, isWordChar, pyIsSpace, Char.isAlphanum,
      Char.isAlpha, Char.isUpper, Char.isLower, Char.isDigit] at this
  have hkeep : ∀ c ∈ s, isKeepChar c = true := by
    intro c hc
    have := hout c hc
    simp [isOutChar, Bool.and_eq_true] at this
    exact this.1
  unfold safe_name
  simp only
  rw [pyStrip_eq_self s hnosp, map_slash_eq_self s hnoslash,
      List.filter_eq_self.mpr hkeep]
  unfold collapseWs
  rw [collapseWsAux_eq_self false s hnosp, List.take_of_length_le hlen,
      if_neg hne]

theorem safe_name_length_le (s : Str) : (safe_name s).length ≤ 120 := by
  unfold safe_name
  simp only
  split
  · decide
  · exact le_trans (List.length_take_le 120 _) (by norm_num)

theorem safe_name_ne_nil (s : Str) : safe_name s ≠ [] := by
  unfold safe_name
  simp only
  split
  · decide
  · assumption

theorem collapseWsAux_true_eq (s : Str) :
    collapseWsAux true s = collapseWsAux false (s.dropWhile pyIsSpace) := by
  induction s with
  | nil => rfl
  | cons a l ih =>
    by_cases ha : pyIsSpace a
    · simp only [collapseWsAux, ha, if_true, List.dropWhile_cons_of_pos ha]
      exact ih
    · simp only [List.dropWhile_cons_of_neg ha]
      simp [collapseWsAux, ha]

theorem collapseWs_eq_specCollapse (s : Str) : collapseWs s = specCollapse s := by
  have key : ∀ n (t : Str), t.length ≤ n → collapseWsAux false t = specCollapse t := by
    intro n
    induction n with
    | zero =>
      intro t ht
      have : t = [] := List.length_eq_zero.mp (Nat.le_zero.mp ht)
      subst this
      simp [collapseWsAux, specCollapse]
    | succ m ih =>
      intro t ht
      cases t with
      | nil => simp [collapseWsAux, specCollapse]
      | cons a l =>
        by_cases ha : pyIsSpace a
        · rw [show collapseWsAux false (a :: l) = '_' :: collapseWsAux true l by
            simp [collapseWsAux, ha]]
          rw [collapseWsAux_true_eq]
          have h1 : (l.dropWhile pyIsSpace).length ≤ l.length :=
            (List.dropWhile_sublist pyIsSpace).length_le
          have hlen : (l.dropWhile pyIsSpace).length ≤ m := by
            simp at ht; omega
          rw [ih _ hlen]
          simp [specCollapse, ha]
        · have hlen : l.length ≤ m := by simp at ht; omega
          rw [show collapseWsAux false (a :: l) = a :: collapseWsAux false l by
            simp [collapseWsAux, ha]]
          rw [ih _ hlen]
          simp [specCollapse, ha]
  exact key s.length s le_rfl

theorem punct_not_space (c : Char) (h : isPunct c = true) : pyIsSpace c = false := by
  have hm : c ∈ punctChars := by
    simpa [isPunct] using h
  fin_cases hm <;> decide

theorem punct_not_keep (c : Char) (h : isPunct c = true) (h1 : c ≠ '_')
    (h2 : c ≠ '-') (h3 : c ≠ '.') : isKeepChar c = false := by
  have hm : c ∈ punctChars := by
    simpa [isPunct] using h
  fin_cases hm <;> first
    | decide
    | (exact absurd rfl h1)
    | (exact absurd rfl h2)
    | (exact absurd rfl h3)

theorem head?_dropWhile (p : Char → Bool) (s : Str) (c : Char)
    (h : (s.dropWhile p).head? = some c) : p c = false := by
  induction s with
  | nil => simp [List.dropWhile] at h
  | cons a l ih =>
    by_cases ha : p a
    · rw [List.dropWhile_cons_of_pos ha] at h
      exact ih h
    · rw [List.dropWhile_cons_of_neg ha] at h
      simp at h
      subst h
      exact Bool.eq_false_iff.mpr ha

theorem pyStrip_head? (s : Str) (c : Char) (h : (pyStrip s).head? = some c) :
    pyIsSpace c = false := by
  unfold pyStrip at h
  rw [List.head?_reverse] at h
  set B := ((s.dropWhile pyIsSpace).reverse.dropWhile pyIsSpace) with hB
  obtain ⟨pre, hpre⟩ := (List.dropWhile_suffix pyIsSpace (l := (s.dropWhile pyIsSpace).reverse))
  have hBne : B ≠ [] := by
    intro hnil
    rw [hnil] at h
    simp at h
  have hlast : ((s.dropWhile pyIsSpace).reverse).getLast? = B.getLast? := by
    rw [← hpre]
    exact List.getLast?_append_of_ne_nil pre hBne
  rw [← hlast] at h
  rw [List.getLast?_reverse] at h
  exact head?_dropWhile pyIsSpace s c h

theorem pyStrip_getLast? (s : Str) (c : Char) (h : (pyStrip s).getLast? = some c) :
    pyIsSpace c = false := by
  unfold pyStrip at h
  rw [List.getLast?_reverse] at h
  exact head?_dropWhile pyIsSpace _ c h

theorem pyStrip_eq_self_of_ends (t : Str)
    (h1 : ∀ c, t.head? = some c → pyIsSpace c = false)
    (h2 : ∀ c, t.getLast? = some c → pyIsSpace c = false) : pyStrip t = t := by
  have hfront : t.dropWhile pyIsSpace = t := by
    cases t with
    | nil => rfl
    | cons a l => exact List.dropWhile_cons_of_neg (by simp [h1 a rfl])
  have hback : t.reverse.dropWhile pyIsSpace = t.reverse := by
    cases hrev : t.reverse with
    | nil => rfl
    | cons b m =>
      have hb : t.getLast? = some b := by
        rw [← List.head?_reverse, hrev]
        rfl
      rw [List.dropWhile_cons_of_neg (by simp [h2 b hb])]
  unfold pyStrip
  rw [hfront, hback, List.reverse_reverse]

theorem pyStrip_idem (s : Str) : pyStrip (pyStrip s) = pyStrip s := by
  apply pyStrip_eq_self_of_ends
  · exact fun c h => pyStrip_head? s c h
  · exact fun c h => pyStrip_getLast? s c h

/-! ### Claims C3, C4, C5, C6: the name sanitizer -/

/-- C3: for every input string, `_safe_name` computes exactly the algorithm
the spec states: trim surrounding whitespace, replace the path separator by a
dash, remove every character that is not alphanumeric, underscore, dash,
whitespace, or dot, collapse each whitespace run into a single underscore,
truncate to at most 120 characters, and fall back to "untitled" when the
result is empty. -/
theorem c3_safe_name_follows_spec_algorithm (s : Str) :
    safe_name s = safeNameSpec s := by
  unfold safe_name safeNameSpec
  simp only
  rw [List.filter_congr (fun c _ => show isKeepChar c = specAllowedChar c by
    simp [isKeepChar, specAllowedChar, isWordChar, Bool.or_assoc])]
  rw [collapseWs_eq_specCollapse]

/-- C4: the name sanitizer is deterministic (it is a pure function: equal
inputs give equal outputs) and idempotent: sanitizing an already-sanitized
name yields that same name. -/
theorem c4_safe_name_idempotent (s t : Str) :
    safe_name (safe_name s) = safe_name s ∧ (s = t → safe_name s = safe_name t) := by
  refine ⟨?_, fun h => by rw [h]⟩
  apply safe_name_eq_self
  · exact fun c hc => mem_safe_name_outChar s c hc
  · exact safe_name_ne_nil s
  · exact safe_name_length_le s

theorem c4_witness :
    safe_name (safe_name ("  a b ".toList)) = safe_name ("  a b ".toList) ∧
      safe_name ("  a b ".toList) = safe_name ("  a b ".toList) :=
  ⟨(c4_safe_name_idempotent ("  a b ".toList) ("  a b ".toList)).1,
    (c4_safe_name_idempotent ("  a b ".toList) ("  a b ".toList)).2 rfl⟩

/-- C5: for every input string, the sanitizer's output contains no path
separator (neither `/` nor `\`) and has length at most 120. -/
theorem c5_safe_name_no_separator_bounded (s : Str) :
    '/' ∉ safe_name s ∧ '\\' ∉ safe_name s ∧ (safe_name s).length ≤ 120 := by
  refine ⟨fun h => ?_, fun h => ?_, safe_name_length_le s⟩
  · have := mem_safe_name_outChar s '/' h
    revert this
    decide
  · have := mem_safe_name_outChar s '\\' h
    revert this
    decide

/-- C6 counterexample: `"."` consists entirely of punctuation, yet the
sanitizer returns `"."`, not the placeholder `"untitled"`: dots (and dashes
and underscores) survive sanitization. -/
theorem c6_counterexample :
    (∀ c ∈ ['.'], isPunct c = true) ∧ safe_name ['.'] = ['.'] ∧
      safe_name ['.'] ≠ ("untitled".toList) := by
  refine ⟨by decide, by decide, by decide⟩

/-- C6 amended: an input consisting entirely of punctuation characters none
of which is an underscore, dash, dot, or slash sanitizes to the placeholder
"untitled". -/
theorem c6_amended_all_punct_untitled (s : Str)
    (hp : ∀ c ∈ s, isPunct c = true)
    (he : ∀ c ∈ s, c ≠ '_' ∧ c ≠ '-' ∧ c ≠ '.' ∧ c ≠ '/') :
    safe_name s = ("untitled".toList) := by
  have hnosp : ∀ c ∈ s, pyIsSpace c = false :=
    fun c hc => punct_not_space c (hp c hc)
  have hnoslash : ∀ c ∈ s, c ≠ '/' := fun c hc => (he c hc).2.2.2
  unfold safe_name
  simp only
  rw [pyStrip_eq_self s hnosp, map_slash_eq_self s hnoslash]
  have hfilter : s.filter isKeepChar = [] := by
    rw [List.filter_eq_nil_iff]
    intro c hc
    have := punct_not_keep c (hp c hc) (he c hc).1 (he c hc).2.1 (he c hc).2.2.1
    simp [this]
  rw [hfilter]
  simp [collapseWs, collapseWsAux]

theorem c6_witness :
    (∀ c ∈ ("!!!".toList), isPunct c = true) ∧
      safe_name ("!!!".toList) = ("untitled".toList) :=
  ⟨by decide, c6_amended_all_punct_untitled ("!!!".toList) (by decide) (by decide)⟩

/-! ### Claims C1 and C10: the content selector -/

/-- C1 counterexample: on `{markdown: "x", html: "y"}` with Markdown
preferred, `_pick_content` returns the tag `"md"`, which is neither
`"markdown"` nor `"html"`: the second component is a file extension, not the
claimed format tag. -/
theorem c1_counterexample :
    (pickContent ⟨1, none, none, none, none, some ("x".toList), some ("y".toList),
        none⟩ true).2 = ("md".toList) ∧
      ("md".toList) ≠ ("markdown".toList) := by
  exact ⟨by decide, by decide⟩

/-- C1 amended: the selector returns a pair (content, extension) whose
extension is `"md"` or `"html"`: with Markdown preferred and a markdown field
non-empty after trimming, the trimmed markdown with `"md"`; otherwise the
trimmed HTML with `"html"`. -/
theorem c1_amended_pick_content (r : Row) (pm : Bool) :
    (pm = true → pyStrip (optStr r.markdown) ≠ [] →
      pickContent r pm = (pyStrip (optStr r.markdown), ("md".toList))) ∧
    (pm = true → pyStrip (optStr r.markdown) = [] →
      pickContent r pm = (pyStrip (optStr r.html), ("html".toList))) ∧
    (pm = false → pickContent r pm = (pyStrip (optStr r.html), ("html".toList))) ∧
    ((pickContent r pm).2 = ("md".toList) ∨ (pickContent r pm).2 = ("html".toList)) := by
  unfold pickContent
  simp only
  cases pm with
  | true =>
    by_cases hmd : pyStrip (optStr r.markdown) = []
    · simp [hmd]
    · simp [hmd, List.isEmpty_iff]
  | false => simp

theorem c1_witness :
    pickContent ⟨1, none, none, none, none, some ("x".toList), some ("y".toList),
        none⟩ true = (("x".toList), ("md".toList)) :=
  ((c1_amended_pick_content
      ⟨1, none, none, none, none, some ("x".toList), some ("y".toList), none⟩
      true).1 rfl (by decide)).trans (by decide)

/-- C10: the selected content is always the whitespace-trimmed value of the
chosen field (so it is a fixed point of trimming and carries no surrounding
whitespace), a null field is treated exactly as the empty string, and the
file written by the export loop contains exactly this selected content. -/
theorem c10_content_trimmed (r : Row) (pm : Bool) (outDir : FilePath) (fs : FS) :
    pyStrip (pickContent r pm).1 = (pickContent r pm).1 ∧
    (pickContent r pm = (pyStrip (optStr r.markdown), ("md".toList)) ∨
      pickContent r pm = (pyStrip (optStr r.html), ("html".toList))) ∧
    pickContent r pm =
      pickContent ⟨r.id, r.rname, r.slug, r.book_name, r.chapter_name,
        some (optStr r.markdown), some (optStr r.html), r.updated_at⟩ pm ∧
    (exportRow pm outDir fs r).1.files (exportPath outDir r pm) =
      some (pickContent r pm).1 := by
  refine ⟨?_, ?_, ?_, ?_⟩
  · unfold pickContent
    simp only
    split
    · exact pyStrip_idem _
    · exact pyStrip_idem _
  · unfold pickContent
    simp only
    split
    · exact Or.inl rfl
    · exact Or.inr rfl
  · unfold pickContent optStr
    simp
  · simp [exportRow, writeText, mkdirP]

/-! ### Decimal formatting: `pad6` is injective and contains no underscore -/

theorem natDigits_digit_bounds (n : Nat) :
    ∀ c ∈ natDigits n, 48 ≤ c.toNat ∧ c.toNat ≤ 57 := by
  induction n using Nat.strong_induction_on with
  | _ n ih =>
    cases n with
    | zero => intro c hc; simp [natDigits] at hc
    | succ m =>
      intro c hc
      rw [show natDigits (m + 1)
          = natDigits ((m + 1) / 10) ++ [Char.ofNat (48 + (m + 1) % 10)] from by
        simp [natDigits]] at hc
      rcases List.mem_append.mp hc with h | h
      · exact ih ((m + 1) / 10) (Nat.div_lt_self (Nat.succ_pos m) (by omega)) c h
      · simp at h
        subst h
        have hr : (m + 1) % 10 < 10 := Nat.mod_lt _ (by omega)
        interval_cases hv : (m + 1) % 10 <;> simp [hv]

theorem pad6_digit_bounds (n : Nat) :
    ∀ c ∈ pad6 n, 48 ≤ c.toNat ∧ c.toNat ≤ 57 := by
  intro c hc
  rcases List.mem_append.mp hc with h | h
  · have := List.eq_of_mem_replicate h
    subst this
    decide
  · unfold pyNatRepr at h
    split at h
    · simp at h
      subst h
      decide
    · exact natDigits_digit_bounds n c h

theorem pad6_no_underscore (n : Nat) : ∀ c ∈ pad6 n, c ≠ '_' := by
  intro c hc heq
  subst heq
  have := pad6_digit_bounds n '_' hc
  revert this
  decide

theorem digitsVal_append_digit (l : Str) (c : Char) :
    digitsVal (l ++ [c]) = 10 * digitsVal l + (c.toNat - 48) := by
  unfold digitsVal
  rw [List.foldl_append]
  rfl

theorem digit_char_toNat (d : Nat) (hd : d < 10) :
    (Char.ofNat (48 + d)).toNat = 48 + d := by
  interval_cases d <;> decide

theorem digitsVal_natDigits (n : Nat) : digitsVal (natDigits n) = n := by
  induction n using Nat.strong_induction_on with
  | _ n ih =>
    cases n with
    | zero => simp [natDigits, digitsVal]
    | succ m =>
      rw [show natDigits (m + 1)
          = natDigits ((m + 1) / 10) ++ [Char.ofNat (48 + (m + 1) % 10)] from by
        simp [natDigits]]
      rw [digitsVal_append_digit,
        ih ((m + 1) / 10) (Nat.div_lt_self (Nat.succ_pos m) (by omega)),
        digit_char_toNat _ (Nat.mod_lt _ (by omega))]
      omega

theorem digitsVal_replicate_zero (k : Nat) (l : Str) :
    digitsVal (List.replicate k '0' ++ l) = digitsVal l := by
  induction k with
  | zero => simp
  | succ m ih =>
    rw [List.replicate_succ, List.cons_append]
    unfold digitsVal at ih ⊢
    simp only [List.foldl_cons]
    convert ih using 2

theorem digitsVal_pad6 (n : Nat) : digitsVal (pad6 n) = n := by
  unfold pad6
  rw [digitsVal_replicate_zero]
  unfold pyNatRepr
  split
  · subst ‹n = 0›
    decide
  · exact digitsVal_natDigits n

theorem pad6_injective (a b : Nat) (h : pad6 a = pad6 b) : a = b := by
  have := congrArg digitsVal h
  rwa [digitsVal_pad6, digitsVal_pad6] at this

theorem append_underscore_inj (xs : Str) :
    ∀ (ys u v : Str), (∀ c ∈ xs, c ≠ '_') → (∀ c ∈ ys, c ≠ '_') →
      xs ++ '_' :: u = ys ++ '_' :: v → xs = ys ∧ u = v := by
  induction xs with
  | nil =>
    intro ys u v _ hy h
    cases ys with
    | nil => simpa using h
    | cons b m =>
      simp at h
      exact absurd h.1.symm (hy b (List.mem_cons_self b m))
  | cons a l ih =>
    intro ys u v hx hy h
    cases ys with
    | nil =>
      simp at h
      exact absurd h.1 (hx a (List.mem_cons_self a l))
    | cons b m =>
      simp only [List.cons_append, List.cons.injEq] at h
      obtain ⟨hab, htail⟩ := h
      obtain ⟨h1, h2⟩ := ih m u v
        (fun c hc => hx c (List.mem_cons_of_mem a hc))
        (fun c hc => hy c (List.mem_cons_of_mem b hc)) htail
      exact ⟨by rw [hab, h1], h2⟩

theorem fileName_id_inj (r1 r2 : Row) (e1 e2 : Str)
    (h : fileName r1 e1 = fileName r2 e2) : r1.id = r2.id := by
  unfold fileName at h
  exact pad6_injective _ _
    (append_underscore_inj (pad6 r1.id) (pad6 r2.id) _ _
      (pad6_no_underscore r1.id) (pad6_no_underscore r2.id) h).1

theorem exportPath_id_inj (outDir : FilePath) (r1 r2 : Row) (pm : Bool)
    (h : exportPath outDir r1 pm = exportPath outDir r2 pm) : r1.id = r2.id := by
  unfold exportPath at h
  have h1 := congrArg List.getLast? h
  rw [List.getLast?_append_of_ne_nil _ (by simp),
      List.getLast?_append_of_ne_nil _ (by simp)] at h1
  simp only [List.getLast?_singleton, Option.some.injEq] at h1
  exact fileName_id_inj r1 r2 _ _ h1

/-! ### Claim C7: directory structure and file naming -/

/-- C7: the output path is `<root>/<book or placeholder>/<chapter>/<file>`
when the row carries a (non-empty) chapter name and
`<root>/<book or placeholder>/<file>` when it carries none — a chapterless
page goes directly under its book, never under a `"None"` directory (chapter
absence is `none` in the row, which is never stringified) — and the file
name is the zero-padded 6-digit id, `_`, the sanitized page name, `.`, and
the chosen extension, which is `"md"` or `"html"`. -/
theorem c7_output_path (outDir : FilePath) (r : Row) (pm : Bool)
    (hc : r.chapter_name ≠ some []) :
    exportPath outDir r pm = pathSpec outDir r pm ∧
    ((pickContent r pm).2 = ("md".toList) ∨ (pickContent r pm).2 = ("html".toList)) := by
  constructor
  · have hbook : bookDir r = (match r.book_name with
        | some b => if b = [] then safe_name ("No_Book".toList) else safe_name b
        | none => safe_name ("No_Book".toList)) := by
      unfold bookDir
      cases hb : r.book_name with
      | none => simp [truthy]
      | some b =>
        by_cases hbe : b = []
        · subst hbe
          simp [truthy]
        · simp [truthy, optStr, List.isEmpty_iff, hbe]
    unfold exportPath pathSpec pageDir fileName
    cases hcn : r.chapter_name with
    | none => simp [truthy, hbook]
    | some c =>
      have hce : c ≠ [] := fun h => hc (by rw [hcn, h])
      simp [truthy, List.isEmpty_iff, hce, hbook, optStr]
  · unfold pickContent
    simp only
    split
    · exact Or.inl rfl
    · exact Or.inr rfl

theorem c7_witness :
    exportPath [] ⟨7, some ("Page".toList), none, some ("Book".toList),
        some ("Chap".toList), some ("m".toList), none, none⟩ true =
      pathSpec [] ⟨7, some ("Page".toList), none, some ("Book".toList),
        some ("Chap".toList), some ("m".toList), none, none⟩ true :=
  (c7_output_path [] ⟨7, some ("Page".toList), none, some ("Book".toList),
    some ("Chap".toList), some ("m".toList), none, none⟩ true (by decide)).1

/-! ### The export loop: manifest and filesystem invariants -/

theorem exportAll_manifest (pm : Bool) (outDir : FilePath) (fs : FS)
    (rows : List Row) :
    (exportAll pm outDir fs rows).2 = rows.map (mrow pm outDir) := by
  induction rows generalizing fs with
  | nil => rfl
  | cons r rs ih => simp [exportAll, exportRow, ih]

theorem exportAll_files_untouched (pm : Bool) (outDir : FilePath)
    (rows : List Row) (fs : FS) (p : FilePath)
    (h : ∀ r ∈ rows, exportPath outDir r pm ≠ p) :
    (exportAll pm outDir fs rows).1.files p = fs.files p := by
  induction rows generalizing fs with
  | nil => rfl
  | cons r rs ih =>
    have h1 := ih ((exportRow pm outDir fs r).1)
      (fun r' hr' => h r' (List.mem_cons_of_mem r hr'))
    show (exportAll pm outDir (exportRow pm outDir fs r).1 rs).1.files p = _
    rw [h1]
    simp only [exportRow, writeText, mkdirP]
    rw [if_neg (fun he => h r (List.mem_cons_self r rs) he.symm)]

theorem exportAll_files_at (pm : Bool) (outDir : FilePath) (rows : List Row)
    (fs : FS) (hids : (rows.map Row.id).Nodup) (r : Row) (hr : r ∈ rows) :
    (exportAll pm outDir fs rows).1.files (exportPath outDir r pm) =
      some (pickContent r pm).1 := by
  induction rows generalizing fs with
  | nil => simp at hr
  | cons a rs ih =>
    have h2 : (∀ x ∈ rs, ¬x.id = a.id) ∧ (rs.map Row.id).Nodup := by
      simpa using hids
    rcases List.mem_cons.mp hr with h | h
    · subst h
      have hnotin : ∀ r' ∈ rs, exportPath outDir r' pm ≠ exportPath outDir r pm := by
        intro r' hr' heq
        exact h2.1 r' hr' (exportPath_id_inj outDir r' _ pm heq)
      show (exportAll pm outDir (exportRow pm outDir fs r).1 rs).1.files _ = _
      rw [exportAll_files_untouched pm outDir rs _ _ hnotin]
      simp [exportRow, writeText]
    · exact ih ((exportRow pm outDir fs a).1) h2.2 h

theorem nodup_id_inj (rows : List Row) (hids : (rows.map Row.id).Nodup) :
    ∀ x ∈ rows, ∀ y ∈ rows, x.id = y.id → x = y := by
  induction rows with
  | nil => intro x hx; simp at hx
  | cons a rs ih =>
    have h2 : (∀ x ∈ rs, ¬x.id = a.id) ∧ (rs.map Row.id).Nodup := by
      simpa using hids
    intro x hx y hy hxy
    rcases List.mem_cons.mp hx with h | h <;> rcases List.mem_cons.mp hy with h' | h'
    · rw [h, h']
    · subst h
      exact absurd hxy.symm (h2.1 y h')
    · subst h'
      exact absurd hxy (h2.1 x h)
    · exact ih h2.2 x h y h' hxy

theorem filter_id_singleton (rows : List Row) (hids : (rows.map Row.id).Nodup)
    (r : Row) (hr : r ∈ rows) :
    (rows.filter (fun r' => r'.id = r.id)).length = 1 := by
  induction rows with
  | nil => simp at hr
  | cons a rs ih =>
    have h2 : (∀ x ∈ rs, ¬x.id = a.id) ∧ (rs.map Row.id).Nodup := by
      simpa using hids
    rcases List.mem_cons.mp hr with h | h
    · subst h
      rw [List.filter_cons, if_pos (by simp)]
      have hnil : rs.filter (fun r' => r'.id = r.id) = [] := by
        rw [List.filter_eq_nil_iff]
        intro x hx hxe
        simp at hxe
        exact h2.1 x hx hxe
      simp [hnil]
    · have hne : a.id ≠ r.id := fun he => h2.1 r h he.symm
      rw [List.filter_cons, if_neg (by simpa using hne)]
      exact ih h2.2 h

theorem filter_page_id_length (pm : Bool) (outDir : FilePath) (rows : List Row)
    (n : Nat) :
    ((rows.map (mrow pm outDir)).filter (fun m => m.page_id = n)).length =
      (rows.filter (fun r' => r'.id = n)).length := by
  induction rows with
  | nil => rfl
  | cons a rs ih =>
    by_cases ha : a.id = n
    · simp only [List.map_cons, List.filter_cons]
      rw [if_pos (by simp [mrow, ha]), if_pos (by simp [ha])]
      simp [ih]
    · simp only [List.map_cons, List.filter_cons]
      rw [if_neg (by simp [mrow, ha]), if_neg (by simp [ha])]
      exact ih

theorem exportPath_length_ge (outDir : FilePath) (r : Row) (pm : Bool) :
    outDir.length + 2 ≤ (exportPath outDir r pm).length := by
  unfold exportPath pageDir
  by_cases hc : truthy r.chapter_name
  · simp [hc]
  · simp [hc]

/-! ### Claim C2: one file and one manifest row per page -/

/-- C2: over any run of the export on fetched rows with (primary-key)
distinct page ids and complete configuration, the export succeeds, the
manifest has exactly one row per page (and all manifest paths are distinct,
so each page has its own single output file), every manifest row whose id is
a given page's carries exactly the path written for that page, and the final
filesystem stores exactly the selected content at that path. -/
theorem c2_export_invariant (env : Env) (pm : Bool) (outDir : FilePath)
    (rows : List Row) (fs0 : FS) (hmiss : missingOf env = [])
    (hids : (rows.map Row.id).Nodup) :
    ∃ man, (exportPages env pm outDir rows fs0).2 = Except.ok man ∧
      man.length = rows.length ∧
      (man.map ManifestRow.path).Nodup ∧
      ∀ r ∈ rows,
        (man.filter (fun m => m.page_id = r.id)).length = 1 ∧
        (∀ m ∈ man, m.page_id = r.id → m.path = exportPath outDir r pm) ∧
        (exportPages env pm outDir rows fs0).1.files (exportPath outDir r pm) =
          some (pickContent r pm).1 := by
  have hok : connectCheck env = Except.ok env := by
    simp [connectCheck, hmiss]
  refine ⟨(exportAll pm outDir (mkdirP fs0 outDir) rows).2, ?_, ?_, ?_, ?_⟩
  · simp [exportPages, hok]
  · rw [exportAll_manifest]
    simp
  · rw [exportAll_manifest]
    have hpair : rows.Pairwise (fun x y => x.id ≠ y.id) := by
      rw [List.Nodup, List.pairwise_map] at hids
      exact hids
    have hpaths : rows.Pairwise (fun x y =>
        exportPath outDir x pm ≠ exportPath outDir y pm) :=
      hpair.imp (fun hne heq => hne (exportPath_id_inj outDir _ _ pm heq))
    rw [List.map_map, List.Nodup, List.pairwise_map]
    exact hpaths
  · intro r hr
    refine ⟨?_, ?_, ?_⟩
    · rw [exportAll_manifest, filter_page_id_length]
      exact filter_id_singleton rows hids r hr
    · intro m hm hid
      rw [exportAll_manifest] at hm
      obtain ⟨r', hr', rfl⟩ := List.mem_map.mp hm
      have hrr : r' = r := nodup_id_inj rows hids r' hr' r hr (by simpa [mrow] using hid)
      rw [hrr]
      rfl
    · have hne : exportPath outDir r pm ≠ outDir ++ [("_index.csv".toList)] := by
        intro he
        have hlen := congrArg List.length he
        have h2 := exportPath_length_ge outDir r pm
        simp at hlen
        omega
      simp only [exportPages, hok]
      simp only [writeText]
      rw [if_neg hne]
      exact exportAll_files_at pm outDir rows _ hids r hr

theorem c2_witness :
    missingOf ⟨some ("h".toList), none, some ("d".toList), some ("u".toList),
        some ("p".toList)⟩ = [] ∧
    (([⟨1, some ("A".toList), none, some ("B".toList), none, some ("m".toList),
        some ("h".toList), none⟩] : List Row).map Row.id).Nodup ∧
    ∃ man, (exportPages ⟨some ("h".toList), none, some ("d".toList),
        some ("u".toList), some ("p".toList)⟩ true [("out".toList)]
        [⟨1, some ("A".toList), none, some ("B".toList), none, some ("m".toList),
          some ("h".toList), none⟩] ⟨[], fun _ => none⟩).2 = Except.ok man ∧
      man.length = 1 ∧
      (man.map ManifestRow.path).Nodup ∧
      ∀ r ∈ ([⟨1, some ("A".toList), none, some ("B".toList), none,
          some ("m".toList), some ("h".toList), none⟩] : List Row),
        (man.filter (fun m => m.page_id = r.id)).length = 1 ∧
        (∀ m ∈ man, m.page_id = r.id →
          m.path = exportPath [("out".toList)] r true) ∧
        (exportPages ⟨some ("h".toList), none, some ("d".toList), some ("u".toList),
          some ("p".toList)⟩ true [("out".toList)]
          [⟨1, some ("A".toList), none, some ("B".toList), none, some ("m".toList),
            some ("h".toList), none⟩] ⟨[], fun _ => none⟩).1.files
            (exportPath [("out".toList)] r true) = some (pickContent r true).1 :=
  ⟨by decide, by decide,
    c2_export_invariant ⟨some ("h".toList), none, some ("d".toList),
      some ("u".toList), some ("p".toList)⟩ true [("out".toList)]
      [⟨1, some ("A".toList), none, some ("B".toList), none, some ("m".toList),
        some ("h".toList), none⟩] ⟨[], fun _ => none⟩ (by decide) (by decide)⟩

/-! ### Claim C9: the output root is created before the configuration check -/

/-- C9: `export_pages` creates the output root (with parents) before
`fetch_pages` runs the `_connect` configuration check, so a run aborting on
missing configuration still leaves the newly created output directory on
disk, empty: no page file and no manifest is written under it. -/
theorem c9_outdir_created_on_config_error (env : Env) (pm : Bool)
    (outDir : FilePath) (rows : List Row) (fs0 : FS)
    (hmiss : missingOf env ≠ [])
    (hfresh : ∀ p, underDir outDir p → fs0.files p = none) :
    outDir ∈ (exportPages env pm outDir rows fs0).1.dirs ∧
    (∀ p, underDir outDir p →
      (exportPages env pm outDir rows fs0).1.files p = none) ∧
    (exportPages env pm outDir rows fs0).2 = Except.error (missingOf env) := by
  have herr : connectCheck env = Except.error (missingOf env) := by
    simp [connectCheck, hmiss]
  have hred : exportPages env pm outDir rows fs0
      = (mkdirP fs0 outDir, Except.error (missingOf env)) := by
    simp [exportPages, herr]
  rw [hred]
  refine ⟨?_, ?_, rfl⟩
  · simp only [mkdirP, prefixesOf, List.mem_append]
    exact Or.inl (List.mem_map.mpr ⟨outDir.length,
      List.mem_range.mpr (Nat.lt_succ_self _), List.take_length outDir⟩)
  · intro p hp
    exact hfresh p hp

theorem c9_witness :
    missingOf ⟨none, none, none, none, none⟩ ≠ [] ∧
    [("out".toList)] ∈ (exportPages ⟨none, none, none, none, none⟩ true
      [("out".toList)] [] ⟨[], fun _ => none⟩).1.dirs ∧
    (exportPages ⟨none, none, none, none, none⟩ true [("out".toList)] []
      ⟨[], fun _ => none⟩).1.files [("out".toList), ("x".toList)] = none ∧
    (exportPages ⟨none, none, none, none, none⟩ true [("out".toList)] []
      ⟨[], fun _ => none⟩).2 =
      Except.error (missingOf ⟨none, none, none, none, none⟩) := by
  have h := c9_outdir_created_on_config_error ⟨none, none, none, none, none⟩
    true [("out".toList)] [] ⟨[], fun _ => none⟩ (by decide) (fun p hp => rfl)
  exact ⟨by decide, h.1,
    h.2.1 [("out".toList), ("x".toList)] ⟨[("x".toList)], by decide, rfl⟩, h.2.2⟩

/-! ### Claim C8: configuration resolution and the fatal config error -/

/-- C8: the `.env` fallback touches only database name, user and password —
never host or port — and only when the corresponding variable is unset
(falsy); when it applies, it installs the file's value for the legacy key,
which `get_key` produces with matching surrounding single or double quotes
stripped; and when any of host/name/user/password is still unset afterwards,
the configuration check fails with exactly the list of missing variables —
each of the four names is reported missing precisely when its variable is
unset — before any connection is attempted. -/
theorem c8_config_resolution (env : Env) (lines : List Str) (w : Str) :
    (applyFallbacks env none = env) ∧
    ((applyFallbacks env (some lines)).host = env.host ∧
      (applyFallbacks env (some lines)).port = env.port) ∧
    (truthy env.dbname = true →
      (applyFallbacks env (some lines)).dbname = env.dbname) ∧
    (truthy env.user = true →
      (applyFallbacks env (some lines)).user = env.user) ∧
    (truthy env.pw = true →
      (applyFallbacks env (some lines)).pw = env.pw) ∧
    (truthy env.dbname = false → ∀ v, getKey lines ("DB_DATABASE".toList) = some v →
      v ≠ [] → (applyFallbacks env (some lines)).dbname = some v) ∧
    (truthy env.user = false → ∀ v, getKey lines ("DB_USERNAME".toList) = some v →
      v ≠ [] → (applyFallbacks env (some lines)).user = some v) ∧
    (truthy env.pw = false → ∀ v, getKey lines ("DB_PASSWORD".toList) = some v →
      v ≠ [] → (applyFallbacks env (some lines)).pw = some v) ∧
    (stripQuotes ('"' :: (w ++ ['"'])) = w ∧
      stripQuotes ('\'' :: (w ++ ['\''])) = w) ∧
    (missingOf (applyFallbacks env (some lines)) ≠ [] →
      connectCheck (applyFallbacks env (some lines)) =
        Except.error (missingOf (applyFallbacks env (some lines)))) ∧
    ((("BS_DB_HOST".toList) ∈ missingOf (applyFallbacks env (some lines)) ↔
        truthy (applyFallbacks env (some lines)).host = false) ∧
      (("BS_DB_NAME".toList) ∈ missingOf (applyFallbacks env (some lines)) ↔
        truthy (applyFallbacks env (some lines)).dbname = false) ∧
      (("BS_DB_USER".toList) ∈ missingOf (applyFallbacks env (some lines)) ↔
        truthy (applyFallbacks env (some lines)).user = false) ∧
      (("BS_DB_PASS".toList) ∈ missingOf (applyFallbacks env (some lines)) ↔
        truthy (applyFallbacks env (some lines)).pw = false)) := by
  refine ⟨rfl, ⟨rfl, rfl⟩, ?_, ?_, ?_, ?_, ?_, ?_, ⟨?_, ?_⟩, ?_, ?_⟩
  · intro h
    simp [applyFallbacks, applyFallback1, h]
  · intro h
    simp [applyFallbacks, applyFallback1, h]
  · intro h
    simp [applyFallbacks, applyFallback1, h]
  · intro h v hv hvne
    have hv' : getKey lines ['D', 'B', '_', 'D', 'A', 'T', 'A', 'B', 'A', 'S',
      'E'] = some v := hv
    simp [applyFallbacks, applyFallback1, h, hv', List.isEmpty_iff, hvne]
  · intro h v hv hvne
    have hv' : getKey lines ['D', 'B', '_', 'U', 'S', 'E', 'R', 'N', 'A', 'M',
      'E'] = some v := hv
    simp [applyFallbacks, applyFallback1, h, hv', List.isEmpty_iff, hvne]
  · intro h v hv hvne
    have hv' : getKey lines ['D', 'B', '_', 'P', 'A', 'S', 'S', 'W', 'O', 'R',
      'D'] = some v := hv
    simp [applyFallbacks, applyFallback1, h, hv', List.isEmpty_iff, hvne]
  · unfold stripQuotes
    rw [if_pos]
    · simp
    · refine Or.inl ⟨rfl, ?_⟩
      rw [show ('"' :: (w ++ ['"'])) = ('"' :: w) ++ ['"'] from by simp]
      rw [List.getLast?_append_of_ne_nil _ (by simp)]
      rfl
  · unfold stripQuotes
    rw [if_pos]
    · simp
    · refine Or.inr ⟨rfl, ?_⟩
      rw [show ('\'' :: (w ++ ['\''])) = ('\'' :: w) ++ ['\''] from by simp]
      rw [List.getLast?_append_of_ne_nil _ (by simp)]
      rfl
  · intro h
    simp [connectCheck, h]
  · set e := applyFallbacks env (some lines)
    refine ⟨?_, ?_, ?_, ?_⟩ <;>
      (unfold missingOf) <;>
      by_cases h1 : truthy e.host <;>
      by_cases h2 : truthy e.dbname <;>
      by_cases h3 : truthy e.user <;>
      by_cases h4 : truthy e.pw <;>
      simp [h1, h2, h3, h4]

theorem c8_witness :
    truthy (⟨some ("h".toList), none, none, none, none⟩ : Env).dbname = false ∧
    getKey [("# x".toList), ("DB_DATABASE=\"bookstack\"".toList)]
      ("DB_DATABASE".toList) = some ("bookstack".toList) ∧
    (applyFallbacks ⟨some ("h".toList), none, none, none, none⟩
      (some [("# x".toList), ("DB_DATABASE=\"bookstack\"".toList)])).dbname =
      some ("bookstack".toList) ∧
    connectCheck (applyFallbacks ⟨some ("h".toList), none, none, none, none⟩
      (some [("# x".toList), ("DB_DATABASE=\"bookstack\"".toList)])) =
      Except.error (missingOf (applyFallbacks
        ⟨some ("h".toList), none, none, none, none⟩
        (some [("# x".toList), ("DB_DATABASE=\"bookstack\"".toList)]))) := by
  have h := c8_config_resolution ⟨some ("h".toList), none, none, none, none⟩
    [("# x".toList), ("DB_DATABASE=\"bookstack\"".toList)] []
  refine ⟨by decide, by decide, ?_, ?_⟩
  · exact h.2.2.2.2.2.1 (by decide) ("bookstack".toList) (by decide) (by decide)
  · exact h.2.2.2.2.2.2.2.2.2.1 (by decide)

end BookStackExport
